import Mathlib

/-!
Verification of the rotating log writer in util/logging/rotate_logger.go.

The Go source is embedded shallowly:
* the reaper pass (RotateFileWriter.reap) becomes a pure function from the
  directory listing to the list of file names it removes;
* NewRotateFileWriter becomes a pure function of the configuration and of the
  outcome of the initial os.Stat / os.OpenFile calls;
* rotateFile.archive becomes a function on an association-list file system,
  with fault flags standing for the failure of each fallible step;
* rotateFile.Write / rotateFile.Rotate / RotateFileWriter.Write become a
  fuel-indexed sequential machine over a heap of handles, mirroring the
  single-writer executions of the Go code (one operation at a time).
-/

namespace RotateLogger

/-! ## Reaper: filename matching (regexp `^path\.(\d+)\.zip$`) -/

/-- Strips the list `p` from the front of `f`: returns the remainder when `p`
is a prefix of `f`, and `none` otherwise. Used to embed the literal
`regexp.QuoteMeta(r.path)` part of the reap pattern. -/
def stripPre : List Char → List Char → Option (List Char)
  | [], rest => some rest
  | _ :: _, [] => none
  | p :: ps, c :: cs => if p = c then stripPre ps cs else none

/-- Decimal digit test, embedding the `\d` character class. -/
def isDigitC (c : Char) : Bool := decide ('0' ≤ c) && decide (c ≤ '9')

/-- Embeds `reapRegexp.MatchString file` for the pattern
`^<quoted path>\.(\d+)\.zip$` built at rotate_logger.go:217: the file name is
exactly the path, a dot, a nonempty run of digits, and the suffix ".zip". -/
def reapMatchL (path file : List Char) : Bool :=
  match stripPre path file with
  | none => false
  | some rest =>
    match rest with
    | '.' :: rest2 =>
      let sp := rest2.span isDigitC
      !sp.1.isEmpty && sp.2 == ['.', 'z', 'i', 'p']
    | _ => false

def reapMatch (path file : String) : Bool := reapMatchL path.toList file.toList

/-- Embeds `reapRegexp.FindStringSubmatch file` restricted to the first
capture group (the digit run), which is what the reap loop reads. -/
def reapSubmatch (path file : String) : Option String :=
  match stripPre path.toList file.toList with
  | none => none
  | some ('.' :: rest2) =>
    let sp := rest2.span isDigitC
    if !sp.1.isEmpty && sp.2 == ['.', 'z', 'i', 'p'] then some (String.mk sp.1)
    else none
  | some _ => none

/-! ## Reaper: the reap pass -/

/-- Lexicographic comparison of character lists, embedding Go's byte-wise
string order used by `sort.Strings` (for these names all characters are
ASCII, where code-point order and byte order agree). -/
def lexLe : List Char → List Char → Bool
  | [], _ => true
  | _ :: _, [] => false
  | a :: as, b :: bs => if a < b then true else if b < a then false else lexLe as bs

def strLexLe (a b : String) : Bool := lexLe a.toList b.toList

def insertStr (x : String) : List String → List String
  | [] => [x]
  | y :: ys => if strLexLe x y then x :: y :: ys else y :: insertStr x ys

/-- Ascending string sort, embedding `sort.Strings(notTooOld)`. -/
def sortStrings (l : List String) : List String := l.foldr insertStr []

/-- Models the call `fmt.Sscanf(matches[1], "%d", timestamp)` exactly as
written at rotate_logger.go:231: `timestamp` is an int64 passed by value,
not by pointer, and the fmt scanning routines reject any verb whose operand
is not a pointer, so the call always returns an error and never yields a
parsed value. -/
def sscanfNonPointerInt (_s : String) : Option Int := none

structure ReapCfg where
  path : String
  /-- RetentionDuration, in seconds (the code compares
  `time.Unix(timestamp, 0).Add(duration)` against `time.Now()`; the model
  works at second granularity throughout). -/
  retentionDuration : Int
  retentionFiles : Int
  deriving DecidableEq

/-- The age-based deletion loop of reap (rotate_logger.go:223-242): when a
retention duration is configured, a matching file is deleted when its
capture group is present (it always is for a match), its timestamp parses
(`continue` otherwise), and the parsed time plus the duration is before
now. -/
def reapTooOld (cfg : ReapCfg) (filesToReap : List String) (now : Int) :
    List String :=
  if cfg.retentionDuration > 0 then
    filesToReap.filter (fun file =>
      match reapSubmatch cfg.path file with
      | none => false
      | some ds =>
        match sscanfNonPointerInt ds with
        | none => false
        | some ts => decide (ts + cfg.retentionDuration < now))
  else []

/-- Embeds RotateFileWriter.reap (rotate_logger.go:206-259) as a function
from the directory listing (the base names returned by `Readdirnames`) and
the current time to the list of file names the pass removes, in removal
order. The model assumes each attempted `os.Remove` succeeds; the claims
considered here are about which files a pass targets. -/
def reap (cfg : ReapCfg) (dirFiles : List String) (now : Int) : List String :=
  let filesToReap := dirFiles.filter (fun f => reapMatch cfg.path f)
  let tooOld := reapTooOld cfg filesToReap now
  let notTooOld := filesToReap.filter (fun f => !(tooOld.contains f))
  let removedByCount :=
    if decide (cfg.retentionFiles > 0) &&
       decide ((notTooOld.length : Int) > cfg.retentionFiles) then
      (sortStrings notTooOld).drop cfg.retentionFiles.toNat
    else []
  tooOld ++ removedByCount

/-! ## NewRotateFileWriter -/

structure RotateFileWriterConfig where
  path : String
  maxSizeBytes : Int
  retentionDuration : Int
  retentionFiles : Int
  deriving DecidableEq

/-- Outcome of the initial `os.Stat(cfg.Path)` call. -/
inductive StatRes where
  /-- The file exists; stat succeeds and reports its size. -/
  | statOk (size : Int)
  /-- Stat fails with a not-exist error. -/
  | statNotExist
  /-- Stat fails with some other error. -/
  | statFailed
  deriving DecidableEq

/-- Embeds `os.IsNotExist(err)` on the stat outcome (n.b. it is false when
`err` is nil). -/
def isNotExist : StatRes → Bool
  | .statNotExist => true
  | _ => false

/-- The error value held in `err` after the stat call: `none` models a nil
error. -/
def statErrOf : StatRes → Option Unit
  | .statFailed => some ()
  | _ => none

/-- The façade value built by a `return w, nil` exit of NewRotateFileWriter,
together with the initial handle stored into the shared container. -/
structure FacadeModel where
  path : String
  retentionDuration : Int
  retentionFiles : Int
  handleCount : Int
  handleMax : Int
  /-- True when `os.OpenFile` failed, in which case the handle's `file`
  field is nil (the open error `ferr` is assigned to `err` and then never
  returned). -/
  fileIsNil : Bool
  deriving DecidableEq

/-- Result of NewRotateFileWriter: either `return nil, err` (where `err`
itself may be nil) or `return w, nil`. -/
inductive NewResult where
  | retNil (e : Option Unit)
  | retWriter (w : FacadeModel)
  deriving DecidableEq

/-- Embeds NewRotateFileWriter (rotate_logger.go:148-184) as a function of
the configuration, of `os.Args[0]`, of the stat outcome, and of whether the
subsequent `os.OpenFile` fails. The control flow is translated line by
line: defaulting of Path and MaxSizeBytes, `count = fi.Size()` when stat
succeeded, the guard `if !os.IsNotExist(err) return nil, err`, and the open
whose error is assigned to `err` but not returned. -/
def newRotateFileWriter (cfg : RotateFileWriterConfig) (arg0 : String)
    (st : StatRes) (openFails : Bool) : NewResult :=
  let path := if cfg.path = "" then arg0 ++ ".log" else cfg.path
  let maxB := if cfg.maxSizeBytes = 0 then 2 ^ 27 else cfg.maxSizeBytes
  let count : Int := match st with | .statOk sz => sz | _ => 0
  if !(isNotExist st) then
    .retNil (statErrOf st)
  else
    .retWriter
      { path := path
        retentionDuration := cfg.retentionDuration
        retentionFiles := cfg.retentionFiles
        handleCount := count
        handleMax := maxB
        fileIsNil := openFails }

/-! ## Archiver: rotateFile.archive over an association-list file system -/

/-- Logical content of a file: raw bytes, or a zip archive holding a list of
named entries. The zip library is embedded at the level of its contract:
`zipper.Create(name)` followed by `io.Copy` stores the copied bytes under
`name`, and reading the archive back yields those same bytes. -/
inductive FileData where
  | bytes (bs : List Nat)
  | zipArchive (entries : List (String × List Nat))
  deriving DecidableEq

/-- The directory contents, as a partial map from file name to content. -/
def FS := String → Option FileData

def fsGet (fs : FS) (n : String) : Option FileData := fs n

def fsRemoveName (fs : FS) (n : String) : FS :=
  fun m => if m = n then none else fs m

def fsSet (fs : FS) (n : String) (d : FileData) : FS :=
  fun m => if m = n then some d else fs m

/-- A directory holding a single file. -/
def fsOne (n : String) (d : FileData) : FS :=
  fun m => if m = n then some d else none

/-- Reads back the entries of a zip archive on disk. Embeds the
archive/zip round-trip contract: decompressing an entry returns exactly the
bytes that were streamed into it. -/
def readZipEntries (fs : FS) (n : String) : Option (List (String × List Nat)) :=
  match fsGet fs n with
  | some (.zipArchive es) => some es
  | _ => none

inductive AErr where
  | openErr | createErr | entryErr | copyErr | removeErr
  deriving DecidableEq

/-- Fault flags for the fallible steps of rotateFile.archive: opening the
intermediate file (when it exists), creating the zip file, creating the zip
entry, and copying the contents. -/
structure ArchiveFaults where
  openFails : Bool
  createFails : Bool
  entryFails : Bool
  copyFails : Bool
  deriving DecidableEq

def noFaults : ArchiveFaults := ⟨false, false, false, false⟩

/-- Embeds `os.Remove(name)`: fails when the file does not exist. -/
def osRemove (fs : FS) (n : String) : Option AErr × FS :=
  match fsGet fs n with
  | none => (some .removeErr, fs)
  | some _ => (none, fsRemoveName fs n)

/-- The body of rotateFile.archive (rotate_logger.go:38-62), before the
deferred removal registered at its top runs: open the intermediate file,
create the zip file, create the single entry named `archiveName`, copy the
contents. Each fallible step consults its fault flag; on a copy fault the
zip file is left holding a truncated entry. The `currentName` parameter is
unused, exactly as in the source. -/
def archiveBody (flt : ArchiveFaults) (_currentName archiveName : String)
    (fs : FS) : Option AErr × FS :=
  match fsGet fs archiveName with
  | none => (some .openErr, fs)
  | some d =>
    if flt.openFails then (some .openErr, fs)
    else
      let srcBytes := match d with | .bytes bs => bs | .zipArchive _ => []
      if flt.createFails then (some .createErr, fs)
      else
        let zipName := archiveName ++ ".zip"
        let fs1 := fsSet fs zipName (.zipArchive [])
        if flt.entryFails then (some .entryErr, fs1)
        else if flt.copyFails then
          (some .copyErr, fsSet fs1 zipName (.zipArchive [(archiveName, [])]))
        else (none, fsSet fs1 zipName (.zipArchive [(archiveName, srcBytes)]))

/-- Embeds rotateFile.archive (rotate_logger.go:31-63). The deferred
function registered first at line 32 runs last on every exit path: it
removes `archiveName` unconditionally and lets the removal error through
only when the body produced none. -/
def archive (flt : ArchiveFaults) (currentName archiveName : String)
    (fs : FS) : Option AErr × FS :=
  let r := archiveBody flt currentName archiveName fs
  let rem := osRemove r.2 archiveName
  (if r.1 = none then rem.1 else r.1, rem.2)

/-! ## The write/rotate machine -/

/-- Errors surfaced by the write path. `rotateWrap e` is the
`fmt.Errorf("error rotating log: ...")` wrapping at rotate_logger.go:127;
`rotateGeneric` is the `errors.New("error rotating log")` at line 131;
`pathClosed` is the *os.PathError returned by writing a closed file (which
is distinct from the `os.ErrClosed` sentinel the façade compares against);
`outOfFuel` marks exhausted fuel in the model and is never produced by a
run given sufficient fuel. -/
inductive GErr where
  | closeFail | renameFail | openFail
  | pathClosed
  | errClosedSentinel
  | rotateWrap (e : GErr)
  | rotateGeneric
  | outOfFuel
  deriving DecidableEq

/-- One rotateFile handle: the running byte counter, the maximum size, the
sync.Once guard state, whether the descriptor is closed, the bytes written
through this descriptor to the active file, and (for stating the single-shot
property) how many times Rotate has been initiated on this handle. -/
structure RFile where
  count : Int
  max : Int
  once : Bool
  closed : Bool
  content : List Nat
  rotations : Nat
  deriving DecidableEq

def rfDefault : RFile := ⟨0, 0, false, false, [], 0⟩

/-- Machine state: the heap of handles (a handle's heap index stands for its
pointer identity), the shared atomic container (`index` of the published
handle), the renamed-out intermediate files with their contents, the log
path, the clock, fault flags for the fallible steps of Rotate, and the
façade's closed flag. -/
structure MState where
  heap : List RFile
  container : Nat
  archived : List (String × List Nat)
  path : String
  now : Nat
  closeFails : Bool
  renameFails : Bool
  openFails : Bool
  facadeClosed : Bool
  deriving DecidableEq

def getF (st : MState) (i : Nat) : RFile := (st.heap[i]?).getD rfDefault

def setF (st : MState) (i : Nat) (f : RFile) : MState :=
  { st with heap := st.heap.set i f }

/-- Computes the intermediate archive name chosen by Rotate
(rotate_logger.go:76-78): the active path with the rotation timestamp
appended. -/
def mkArchiveName (path : String) (now : Nat) : String :=
  path ++ "." ++ toString now

/-- Result of rotateFile.Rotate: `ok newId` is `return replacement, nil`;
`failNil e` is a `return nil, err` exit (close or rename failed);
`failSelf e` is the `return f, err` exit taken when opening the fresh file
fails. -/
inductive RotRes where
  | ok (newId : Nat)
  | failNil (e : GErr)
  | failSelf (e : GErr)
  deriving DecidableEq

/-- Embeds rotateFile.Rotate (rotate_logger.go:75-109) for handle `fid`.
In-flight writes are already drained in the sequential model (the
`f.wg.Wait()` is a no-op); the asynchronous `go f.archive(...)` dispatch is
not part of the handle machine and is modelled separately by `archive`.
Rotation initiation is counted for the single-shot property. -/
def rotate (st : MState) (fid : Nat) : RotRes × MState :=
  let f := getF st fid
  let archiveName := mkArchiveName st.path st.now
  let st0 := setF st fid { f with rotations := f.rotations + 1 }
  if st0.closeFails then (.failNil .closeFail, st0)
  else
    let st1 := setF st0 fid { (getF st0 fid) with closed := true }
    if st1.renameFails then (.failNil .renameFail, st1)
    else
      let st2 := { st1 with archived := (archiveName, f.content) :: st1.archived }
      if st2.openFails then (.failSelf .openFail, st2)
      else
        let newId := st2.heap.length
        let repl : RFile :=
          { count := 0, max := f.max, once := false, closed := false
            content := [], rotations := 0 }
        (.ok newId, { st2 with heap := st2.heap ++ [repl] })

/-- Embeds the `f.once.Do(...)` block of rotateFile.Write
(rotate_logger.go:119-125): when the guard has already fired the body is
skipped and the local error stays nil; otherwise the guard fires, Rotate
runs, and on success the replacement is stored into the shared container. -/
def onceDo (st : MState) (fid : Nat) : Option GErr × MState :=
  if (getF st fid).once then (none, st)
  else
    let stb := setF st fid { getF st fid with once := true }
    match rotate stb fid with
    | (.ok nid, stR) => (none, { stR with container := nid })
    | (.failNil e, stR) => (some e, stR)
    | (.failSelf e, stR) => (some e, stR)

/-- Embeds rotateFile.Write (rotate_logger.go:111-134) for handle `fid`,
with fuel bounding the `replacement.Write(p)` recursion. The counter is
bumped first (`atomic.AddInt64`); at or under the maximum the bytes go to
this descriptor (or a `pathClosed` error if it is closed); over the maximum
the sync.Once guard runs Rotate at most once, a rotation error is wrapped
and returned with 0 bytes, a container still holding this handle yields the
generic rotation error, and otherwise the write is delegated in full to the
published replacement. -/
def write : Nat → MState → Nat → List Nat → (Int × Option GErr) × MState
  | 0, st, _, _ => ((0, some .outOfFuel), st)
  | fuel + 1, st, fid, p =>
    let f := getF st fid
    let projected := f.count + (p.length : Int)
    let f1 : RFile := { f with count := projected }
    let st1 := setF st fid f1
    if projected ≤ f.max then
      if f1.closed then ((0, some .pathClosed), st1)
      else
        let st2 := setF st1 fid { f1 with content := f1.content ++ p }
        (((p.length : Int), none), st2)
    else
      let r := onceDo st1 fid
      match r.1 with
      | some e => ((0, some (.rotateWrap e)), r.2)
      | none =>
        if r.2.container = fid then ((0, some .rotateGeneric), r.2)
        else write fuel r.2 r.2.container p

/-- Embeds RotateFileWriter.Write (rotate_logger.go:261-271): load the
published handle, delegate, and retry only when the error is the
`os.ErrClosed` sentinel itself and the façade is not closed. (A write on a
closed descriptor actually returns a *os.PathError, which the sentinel
comparison never matches, so the retry branch is faithful dead code.) -/
def facadeWrite : Nat → MState → List Nat → (Int × Option GErr) × MState
  | 0, st, _ => ((0, some .outOfFuel), st)
  | fuel + 1, st, p =>
    let r := write fuel st st.container p
    if r.1.2 = some .errClosedSentinel ∧ ¬ r.2.facadeClosed then
      facadeWrite fuel r.2 p
    else r

/-- Runs a sequence of façade writes, each with the given fuel. -/
def runWrites (fuel : Nat) (ps : List (List Nat)) (st : MState) : MState :=
  ps.foldl (fun s p => (facadeWrite fuel s p).2) st

/-- The machine state right after NewRotateFileWriter: one handle at the
configured path, counter primed with the pre-existing size, once-guard not
fired, no rotations initiated. -/
def mkInit (c mx : Int) (old : List Nat) (path : String) (now : Nat)
    (cf rf of : Bool) : MState :=
  { heap := [{ count := c, max := mx, once := false, closed := false
               content := old, rotations := 0 }]
    container := 0
    archived := []
    path := path
    now := now
    closeFails := cf
    renameFails := rf
    openFails := of
    facadeClosed := false }

/-- A machine state whose single handle has already fired its rotation
guard without advancing the shared container: the state left behind by a
failed rotation attempt (descriptor closed, counter over threshold left as
given, container still pointing at the handle itself). -/
def mkStale (c mx : Int) (old : List Nat) (path : String) (now : Nat) :
    MState :=
  { heap := [{ count := c, max := mx, once := true, closed := true
               content := old, rotations := 1 }]
    container := 0
    archived := [(mkArchiveName path now, old)]
    path := path
    now := now
    closeFails := false
    renameFails := false
    openFails := false
    facadeClosed := false }

/-- A concrete two-handle state: handle 0 has been superseded by a
successful rotation (counter 5 over maximum 4, guard fired, descriptor
closed) and the shared container publishes handle 1. -/
def staleDemo : MState :=
  { heap := [⟨5, 4, true, true, [9, 9], 1⟩,
      ⟨3, 4, false, false, [5, 5, 5], 0⟩]
    container := 1
    archived := [("x.log.1700", [9, 9])]
    path := "x.log"
    now := 1700
    closeFails := false
    renameFails := false
    openFails := false
    facadeClosed := false }

/-- The rotation-guard invariant: a handle has initiated at most one
rotation, and none at all while its guard has not fired. -/
def RotOnce (f : RFile) : Prop := f.rotations ≤ 1 ∧ (f.once = false → f.rotations = 0)

def Inv (st : MState) : Prop := ∀ f ∈ st.heap, RotOnce f

/-! ## Helper lemmas -/

theorem fsGet_fsSet_self (fs : FS) (n : String) (d : FileData) :
    fsGet (fsSet fs n d) n = some d := by
  simp [fsGet, fsSet]

theorem fsGet_fsSet_ne (fs : FS) (n : String) (d : FileData) (m : String)
    (h : m ≠ n) : fsGet (fsSet fs n d) m = fsGet fs m := by
  simp [fsGet, fsSet, h]

theorem fsGet_fsRemoveName_ne (fs : FS) (n m : String) (h : m ≠ n) :
    fsGet (fsRemoveName fs n) m = fsGet fs m := by
  simp [fsGet, fsRemoveName, h]

theorem str_ne_append_zip (s : String) : s ≠ s ++ ".zip" := by
  intro h
  have hl := congrArg String.length h
  rw [String.length_append] at hl
  have : (".zip" : String).length = 4 := rfl
  omega

theorem stripPre_eq_append {p f r : List Char} (h : stripPre p f = some r) :
    f = p ++ r := by
  induction p generalizing f with
  | nil => simpa [stripPre] using h
  | cons c cs ih =>
    cases f with
    | nil => simp [stripPre] at h
    | cons a as =>
      rw [stripPre] at h
      by_cases hca : c = a
      · subst hca
        simp only [if_pos rfl] at h
        simpa using ih h
      · simp [hca] at h

theorem reapMatchL_mem {p f : List Char} {c : Char} (hc : c ∈ p)
    (h : reapMatchL p f = true) : c ∈ f := by
  rw [reapMatchL] at h
  cases hs : stripPre p f with
  | none => rw [hs] at h; simp at h
  | some rest =>
    rw [stripPre_eq_append hs]
    exact List.mem_append_left _ hc

theorem reapTooOld_eq_nil (cfg : ReapCfg) (files : List String) (now : Int) :
    reapTooOld cfg files now = [] := by
  rw [reapTooOld]
  split
  · rw [List.filter_eq_nil_iff]
    intro f _
    cases reapSubmatch cfg.path f <;> simp [sscanfNonPointerInt]
  · rfl

/-! ## Claim C1 -/

/-- C1: the claim states that a failing archive step (opening the
intermediate file, creating the zip file, creating the zip entry, or
copying) aborts WITHOUT deleting the intermediate file. The code evaluated
at a failing input refutes this: on a directory holding only the
intermediate file x.log.100 with content [1, 2, 3], an invocation whose
zip-creation step fails does return the creation error, but the deferred
removal registered at the top of rotateFile.archive has deleted the
intermediate file anyway. -/
theorem archive_create_failure_deletes_intermediate :
    (archive ⟨false, true, false, false⟩ "x.log" "x.log.100"
        (fsOne "x.log.100" (.bytes [1, 2, 3]))).1 = some .createErr ∧
    fsGet (archive ⟨false, true, false, false⟩ "x.log" "x.log.100"
        (fsOne "x.log.100" (.bytes [1, 2, 3]))).2 "x.log.100" = none := by
  constructor <;> rfl

/-! ## Claim C2 -/

/-- C2: the claim states that NewRotateFileWriter fails exactly when stat
or open fails, and that with a pre-existing file it succeeds with the
handle's counter primed to the file's size. The code evaluated at the
failing input refutes this: when the file exists (stat succeeds, size 5),
the guard `if !os.IsNotExist(err)` fires on the nil error and the function
returns a nil façade together with a nil error. Moreover when the file does
not exist but the open fails, the open error is assigned to a dead variable
and a façade with a nil file is returned with a nil error. The only honoured
part is a genuine stat failure, which is returned. -/
theorem newRotateFileWriter_existing_file_returns_nil_nil :
    newRotateFileWriter ⟨"x.log", 64, 0, 0⟩ "prog" (.statOk 5) false =
      .retNil none ∧
    newRotateFileWriter ⟨"x.log", 64, 0, 0⟩ "prog" .statNotExist true =
      .retWriter ⟨"x.log", 0, 0, 0, 64, true⟩ ∧
    newRotateFileWriter ⟨"x.log", 64, 0, 0⟩ "prog" .statFailed false =
      .retNil (some ()) := by
  exact ⟨rfl, rfl, rfl⟩

/-! ## Claim C3 -/

/-- C3: the claim states that with RetentionFiles = 2 and three remaining
archives, the reap pass deletes exactly the oldest one and keeps the two
newest. The code evaluated at that input refutes this: after the ascending
sort, `toRemove := notTooOld[r.retentionFiles:]` keeps the FIRST two
entries — the two oldest — and deletes the newest archive sensu.log.3.zip. -/
theorem reap_retention_deletes_newest :
    reap ⟨"sensu.log", 0, 2⟩
      ["sensu.log.1.zip", "sensu.log.2.zip", "sensu.log.3.zip"] 0 =
      ["sensu.log.3.zip"] := by
  rfl

/-! ## Claim C4 -/

/-- C4: the claim states that with a positive RetentionDuration every
matching archive older than the window is deleted by the pass. The code
refutes this for every input: the timestamp scan at rotate_logger.go:231
passes its int64 destination by value rather than by pointer, so parsing
always fails, every file takes the `continue` branch, and no archive is
ever deleted on age grounds. With count-based retention disabled the pass
therefore removes nothing at all, whatever the directory contents, the
duration and the clock. -/
theorem reap_age_deletion_never_triggers (cfg : ReapCfg)
    (dirFiles : List String) (now : Int) (h : cfg.retentionFiles = 0) :
    reap cfg dirFiles now = [] := by
  rw [reap]
  rw [reapTooOld_eq_nil]
  simp [h]

/-- Witness for C4: a reaper pass with RetentionDuration one hour and an
archive timestamped two hours before now (timestamp 2800, now 10000)
removes nothing, where the claim requires that archive to be deleted. -/
theorem reap_age_deletion_never_triggers_witness :
    reap ⟨"sensu.log", 3600, 0⟩ ["sensu.log.2800.zip"] 10000 = [] :=
  reap_age_deletion_never_triggers _ _ _ rfl

/-! ## Claim C5 -/

/-- C5: for every configuration whose log path contains a directory
separator, a reap pass deletes no files at all: the match pattern embeds
the full configured path, but it is applied to the base names returned by
listing the directory, and a base name (which contains no separator) can
never have the separator-containing path as a prefix. -/
theorem reap_dir_path_removes_nothing (cfg : ReapCfg)
    (dirFiles : List String) (now : Int) (hp : '/' ∈ cfg.path.toList)
    (hf : ∀ f ∈ dirFiles, '/' ∉ f.toList) :
    reap cfg dirFiles now = [] := by
  have hfilter : dirFiles.filter (fun f => reapMatch cfg.path f) = [] := by
    rw [List.filter_eq_nil_iff]
    intro f hmem hmatch
    exact hf f hmem (reapMatchL_mem hp hmatch)
  rw [reap, hfilter, reapTooOld_eq_nil]
  simp [sortStrings]

/-- Witness for C5: with path dir/log and a directory listing of base names
(none of which contains a separator), the pass removes nothing. -/
theorem reap_dir_path_removes_nothing_witness :
    reap ⟨"dir/log", 3600, 2⟩ ["log.1.zip", "log.2.zip", "dir.1.zip"] 10000 =
      [] :=
  reap_dir_path_removes_nothing _ _ _ (by decide) (by decide)

/-! ## Claim C9 -/

/-- C9: for a successful rotation of active file path at timestamp now, the
rotated pre-compression file is named path.now (with the content of the
active file), the compressed archive is named path.now.zip and holds
exactly one entry stored under the name path.now, and reading that single
entry back yields content bit-identical to the rotated file's content. -/
theorem rotate_archive_naming_roundtrip (st : MState) (fid : Nat) (fs : FS)
    (content : List Nat)
    (hcf : st.closeFails = false) (hrf : st.renameFails = false)
    (hof : st.openFails = false)
    (hfs : fsGet fs (st.path ++ "." ++ toString st.now) =
      some (.bytes content)) :
    mkArchiveName st.path st.now = st.path ++ "." ++ toString st.now ∧
    (rotate st fid).1 = .ok st.heap.length ∧
    (rotate st fid).2.archived =
      (st.path ++ "." ++ toString st.now, (getF st fid).content) ::
        st.archived ∧
    (archive noFaults st.path (st.path ++ "." ++ toString st.now) fs).1 =
      none ∧
    readZipEntries
      (archive noFaults st.path (st.path ++ "." ++ toString st.now) fs).2
      (st.path ++ "." ++ toString st.now ++ ".zip") =
      some [(st.path ++ "." ++ toString st.now, content)] := by
  have hzip := str_ne_append_zip (st.path ++ "." ++ toString st.now)
  refine ⟨rfl, ?_, ?_, ?_, ?_⟩
  · simp [rotate, setF, hcf, hrf, hof, List.length_set]
  · simp [rotate, setF, hcf, hrf, hof, mkArchiveName, getF]
  · simp only [archive, archiveBody, osRemove, noFaults]
    simp only [hfs]
    simp [fsGet_fsSet_ne _ _ _ _ hzip, fsGet_fsSet_self, hfs]
  · simp only [archive, archiveBody, osRemove, noFaults, readZipEntries]
    simp only [hfs]
    simp [fsGet_fsSet_ne _ _ _ _ hzip, fsGet_fsSet_self, hfs,
      fsGet_fsRemoveName_ne _ _ _ (Ne.symm hzip)]

/-- Witness for C9 at a concrete state: path x.log, timestamp 1700, one
handle holding bytes 9 9, a directory holding the rotated file
x.log.1700. -/
theorem rotate_archive_naming_roundtrip_witness :
    mkArchiveName "x.log" 1700 = "x.log.1700" ∧
    (rotate (mkInit 2 4 [9, 9] "x.log" 1700 false false false) 0).1 =
      .ok 1 ∧
    (rotate (mkInit 2 4 [9, 9] "x.log" 1700 false false false) 0).2.archived =
      [("x.log.1700", [9, 9])] ∧
    (archive noFaults "x.log" "x.log.1700"
      (fsOne "x.log.1700" (.bytes [9, 9]))).1 = none ∧
    readZipEntries
      (archive noFaults "x.log" "x.log.1700"
        (fsOne "x.log.1700" (.bytes [9, 9]))).2 "x.log.1700.zip" =
      some [("x.log.1700", [9, 9])] := by
  have h := rotate_archive_naming_roundtrip
    (mkInit 2 4 [9, 9] "x.log" 1700 false false false) 0
    (fsOne "x.log.1700" (.bytes [9, 9])) [9, 9] rfl rfl rfl (by rfl)
  simpa using h

/-! ## Claim C6 -/

/-- C6: a write whose post-increment total exceeds the maximum is, after a
successful rotation, retried in full against the new current handle: the
caller gets back the full byte count with no error, the crossing bytes land
entirely in the post-rotation file, the old file's bytes are intact in the
renamed intermediate, and the shared reference has advanced. When rotation
fails — the close, rename or open step errors, or (for a handle whose guard
already fired) the shared reference still equals the exhausted handle — the
write returns a rotation error with 0 bytes written. The `hfit` bound makes
the retried write fit the fresh handle, which is what lets it land in THE
post-rotation file rather than cascade further. -/
theorem write_crossing_retry (c mx : Int) (old p : List Nat) (path : String)
    (now : Nat) (fuel : Nat)
    (hcross : mx < c + (p.length : Int)) (hfit : (p.length : Int) ≤ mx) :
    ((write (fuel + 2) (mkInit c mx old path now false false false) 0 p).1 =
        ((p.length : Int), none) ∧
      (getF (write (fuel + 2) (mkInit c mx old path now false false false)
        0 p).2 1).content = p ∧
      (getF (write (fuel + 2) (mkInit c mx old path now false false false)
        0 p).2 0).content = old ∧
      (write (fuel + 2) (mkInit c mx old path now false false false)
        0 p).2.archived = [(mkArchiveName path now, old)] ∧
      (write (fuel + 2) (mkInit c mx old path now false false false)
        0 p).2.container = 1) ∧
    (write (fuel + 1) (mkInit c mx old path now true false false) 0 p).1 =
      (0, some (.rotateWrap .closeFail)) ∧
    (write (fuel + 1) (mkInit c mx old path now false true false) 0 p).1 =
      (0, some (.rotateWrap .renameFail)) ∧
    (write (fuel + 1) (mkInit c mx old path now false false true) 0 p).1 =
      (0, some (.rotateWrap .openFail)) ∧
    (write (fuel + 1) (mkStale c mx old path now) 0 p).1 =
      (0, some .rotateGeneric) := by
  have hc' : ¬(c + (p.length : Int) ≤ mx) := by omega
  refine ⟨⟨?_, ?_, ?_, ?_, ?_⟩, ?_, ?_, ?_, ?_⟩ <;>
    simp [write, onceDo, rotate, mkInit, mkStale, getF, setF, mkArchiveName,
      hc', hfit]

/-- Witness for C6 at a concrete input: counter 2, maximum 4, old content
9 9, crossing write 5 5 5. -/
theorem write_crossing_retry_witness :
    ((write 7 (mkInit 2 4 [9, 9] "x.log" 1700 false false false) 0
        [5, 5, 5]).1 = (3, none) ∧
      (getF (write 7 (mkInit 2 4 [9, 9] "x.log" 1700 false false false) 0
        [5, 5, 5]).2 1).content = [5, 5, 5] ∧
      (getF (write 7 (mkInit 2 4 [9, 9] "x.log" 1700 false false false) 0
        [5, 5, 5]).2 0).content = [9, 9] ∧
      (write 7 (mkInit 2 4 [9, 9] "x.log" 1700 false false false) 0
        [5, 5, 5]).2.archived = [(mkArchiveName "x.log" 1700, [9, 9])] ∧
      (write 7 (mkInit 2 4 [9, 9] "x.log" 1700 false false false) 0
        [5, 5, 5]).2.container = 1) ∧
    (write 6 (mkInit 2 4 [9, 9] "x.log" 1700 true false false) 0
      [5, 5, 5]).1 = (0, some (.rotateWrap .closeFail)) ∧
    (write 6 (mkInit 2 4 [9, 9] "x.log" 1700 false true false) 0
      [5, 5, 5]).1 = (0, some (.rotateWrap .renameFail)) ∧
    (write 6 (mkInit 2 4 [9, 9] "x.log" 1700 false false true) 0
      [5, 5, 5]).1 = (0, some (.rotateWrap .openFail)) ∧
    (write 6 (mkStale 2 4 [9, 9] "x.log" 1700) 0 [5, 5, 5]).1 =
      (0, some .rotateGeneric) :=
  write_crossing_retry 2 4 [9, 9] [5, 5, 5] "x.log" 1700 5
    (by decide) (by decide)

/-! ## Claim C7 -/

/-- C7 (counterexample): the claim states that after a failed rotation
attempt, subsequent writes through the writer continue to be written to the
old over-threshold file. Concretely: counter 2, maximum 4, old content 9 9;
a write of 5 5 5 triggers rotation, and opening the new file fails. The
next write of the single byte 7 through the façade returns 0 bytes with the
generic rotation error; the old file's content is still 9 9 (renamed out
with the handle's descriptor closed), no handle received the byte 7, and no
new file exists. Subsequent writes are refused, not "written to the old
file". -/
theorem writer_after_failed_rotation_refuses :
    (facadeWrite 5 (write 5 (mkInit 2 4 [9, 9] "x.log" 1700 false false true)
      0 [5, 5, 5]).2 [7]).1 = (0, some .rotateGeneric) ∧
    (getF (facadeWrite 5 (write 5
      (mkInit 2 4 [9, 9] "x.log" 1700 false false true) 0 [5, 5, 5]).2
      [7]).2 0).content = [9, 9] ∧
    (facadeWrite 5 (write 5 (mkInit 2 4 [9, 9] "x.log" 1700 false false true)
      0 [5, 5, 5]).2 [7]).2.heap.length = 1 ∧
    (facadeWrite 5 (write 5 (mkInit 2 4 [9, 9] "x.log" 1700 false false true)
      0 [5, 5, 5]).2 [7]).2.archived = [("x.log.1700", [9, 9])] := by
  refine ⟨rfl, rfl, rfl, rfl⟩

/-- C7 (amended): on failure to open the new file, Rotate returns the
original handle together with the error, and rotation does not take effect
in the sense that the shared reference is not advanced (it still holds the
exhausted handle). Subsequent writes through the writer are NOT written to
the old file — its descriptor is closed and the file renamed away — they
return the generic rotation error with 0 bytes written, every handle's
content is left unchanged, and no data is silently appended anywhere. -/
theorem rotate_open_failure_no_further_writes (c mx : Int)
    (old p q : List Nat) (path : String) (now : Nat) (fuel : Nat)
    (hcross : mx < c + (p.length : Int)) :
    (rotate (setF (mkInit c mx old path now false false true) 0
      { getF (mkInit c mx old path now false false true) 0 with
          count := c + (p.length : Int), once := true }) 0).1 =
      .failSelf .openFail ∧
    (write (fuel + 1) (mkInit c mx old path now false false true) 0 p).1 =
      (0, some (.rotateWrap .openFail)) ∧
    (write (fuel + 1) (mkInit c mx old path now false false true) 0
      p).2.container = 0 ∧
    (facadeWrite (fuel + 2) (write (fuel + 1)
      (mkInit c mx old path now false false true) 0 p).2 q).1 =
      (0, some .rotateGeneric) ∧
    (getF (facadeWrite (fuel + 2) (write (fuel + 1)
      (mkInit c mx old path now false false true) 0 p).2 q).2 0).content =
      old ∧
    (facadeWrite (fuel + 2) (write (fuel + 1)
      (mkInit c mx old path now false false true) 0 p).2 q).2.heap.length =
      1 := by
  have hc' : ¬(c + (p.length : Int) ≤ mx) := by omega
  have hc2 : ¬(c + (p.length : Int) + (q.length : Int) ≤ mx) := by omega
  refine ⟨?_, ?_, ?_, ?_, ?_, ?_⟩ <;>
    simp [facadeWrite, write, onceDo, rotate, mkInit, getF, setF,
      mkArchiveName, hc', hc2]

/-- Witness for the amended C7 at a concrete input: counter 2, maximum 4,
old content 9 9, crossing write 5 5 5, follow-up write 7. -/
theorem rotate_open_failure_no_further_writes_witness :
    (rotate (setF (mkInit 2 4 [9, 9] "x.log" 1700 false false true) 0
      { getF (mkInit 2 4 [9, 9] "x.log" 1700 false false true) 0 with
          count := 2 + (([5, 5, 5] : List Nat).length : Int),
          once := true }) 0).1 = .failSelf .openFail ∧
    (write 4 (mkInit 2 4 [9, 9] "x.log" 1700 false false true) 0
      [5, 5, 5]).1 = (0, some (.rotateWrap .openFail)) ∧
    (write 4 (mkInit 2 4 [9, 9] "x.log" 1700 false false true) 0
      [5, 5, 5]).2.container = 0 ∧
    (facadeWrite 5 (write 4 (mkInit 2 4 [9, 9] "x.log" 1700 false false true)
      0 [5, 5, 5]).2 [7]).1 = (0, some .rotateGeneric) ∧
    (getF (facadeWrite 5 (write 4
      (mkInit 2 4 [9, 9] "x.log" 1700 false false true) 0 [5, 5, 5]).2
      [7]).2 0).content = [9, 9] ∧
    (facadeWrite 5 (write 4 (mkInit 2 4 [9, 9] "x.log" 1700 false false true)
      0 [5, 5, 5]).2 [7]).2.heap.length = 1 :=
  rotate_open_failure_no_further_writes 2 4 [9, 9] [5, 5, 5] [7] "x.log"
    1700 3 (by decide)

/-! ## Claim C8: the rotation guard is single-shot -/

theorem rotOnce_rfDefault : RotOnce rfDefault :=
  ⟨by simp [rfDefault], fun _ => rfl⟩

theorem rotOnce_getF {st : MState} (h : Inv st) (i : Nat) :
    RotOnce (getF st i) := by
  rw [getF]
  cases hg : st.heap[i]? with
  | none => simpa using rotOnce_rfDefault
  | some f =>
    simp only [Option.getD_some]
    exact h f (List.getElem?_mem hg)

theorem inv_setF {st : MState} {i : Nat} {f : RFile} (h : Inv st)
    (hf : i < st.heap.length → RotOnce f) : Inv (setF st i f) := by
  intro g hg
  by_cases hlt : i < st.heap.length
  · rcases List.mem_or_eq_of_mem_set hg with hm | rfl
    · exact h g hm
    · exact hf hlt
  · simp only [setF] at hg
    rw [List.set_eq_of_length_le (Nat.le_of_not_lt hlt)] at hg
    exact h g hg

theorem getF_setF_self {st : MState} {i : Nat} {f : RFile}
    (h : i < st.heap.length) : getF (setF st i f) i = f := by
  simp [getF, setF, List.getElem?_set, h]

theorem inv_rotate {st : MState} {fid : Nat} (h : Inv st)
    (hin : fid < st.heap.length →
      (getF st fid).once = true ∧ (getF st fid).rotations = 0) :
    Inv (rotate st fid).2 := by
  have h0 : Inv (setF st fid
      { getF st fid with rotations := (getF st fid).rotations + 1 }) := by
    refine inv_setF h fun hlt => ?_
    obtain ⟨ho, hr⟩ := hin hlt
    exact ⟨by simp [hr], fun hf => by simp [ho] at hf⟩
  have h1 : Inv (setF
      (setF st fid
        { getF st fid with rotations := (getF st fid).rotations + 1 }) fid
      { getF (setF st fid
          { getF st fid with rotations := (getF st fid).rotations + 1 })
          fid with closed := true }) :=
    inv_setF h0 fun _ => rotOnce_getF h0 fid
  rw [rotate]
  dsimp only [setF]
  split_ifs with hcf hrf hof
  · exact h0
  · exact h1
  · exact h1
  · intro g hg
    rcases List.mem_append.mp hg with hm | hm
    · exact h1 g hm
    · rw [List.mem_singleton] at hm
      subst hm
      exact ⟨Nat.zero_le _, fun _ => rfl⟩

theorem inv_onceDo {st : MState} {fid : Nat} (h : Inv st) :
    Inv (onceDo st fid).2 := by
  rw [onceDo]
  by_cases honce : (getF st fid).once = true
  · rw [if_pos honce]
    exact h
  · rw [if_neg honce]
    have hb : Inv (setF st fid { getF st fid with once := true }) :=
      inv_setF h fun _ => ⟨(rotOnce_getF h fid).1, fun hf => by simp at hf⟩
    have hin : fid <
        (setF st fid { getF st fid with once := true }).heap.length →
        (getF (setF st fid { getF st fid with once := true }) fid).once =
          true ∧
        (getF (setF st fid { getF st fid with once := true }) fid).rotations
          = 0 := by
      intro hlt
      have hlt' : fid < st.heap.length := by
        simpa [setF, List.length_set] using hlt
      rw [getF_setF_self hlt']
      exact ⟨rfl, (rotOnce_getF h fid).2 (by simpa using honce)⟩
    have hrot := inv_rotate hb hin
    rcases hr : rotate (setF st fid { getF st fid with once := true }) fid
      with ⟨res, stR⟩
    rw [hr] at hrot
    cases res <;> simp only [hr] <;> exact hrot

theorem inv_write : ∀ (fuel : Nat) (st : MState) (fid : Nat) (p : List Nat),
    Inv st → Inv (write fuel st fid p).2 := by
  intro fuel
  induction fuel with
  | zero => intro st fid p h; exact h
  | succ n ih =>
    intro st fid p h
    have hset : Inv (setF st fid
        { getF st fid with count := (getF st fid).count + (p.length : Int) }) :=
      inv_setF h fun _ => rotOnce_getF h fid
    rw [write]
    by_cases hle :
        (getF st fid).count + (p.length : Int) ≤ (getF st fid).max
    · rw [if_pos hle]
      by_cases hcl :
          ({ getF st fid with
            count := (getF st fid).count + (p.length : Int) } : RFile).closed
            = true
      · rw [if_pos hcl]
        exact hset
      · rw [if_neg hcl]
        exact inv_setF hset fun _ => rotOnce_getF h fid
    · rw [if_neg hle]
      have hr2 : Inv (onceDo (setF st fid { getF st fid with
          count := (getF st fid).count + (p.length : Int) }) fid).2 :=
        inv_onceDo hset
      rcases hro : onceDo (setF st fid { getF st fid with
          count := (getF st fid).count + (p.length : Int) }) fid
        with ⟨err, st2⟩
      rw [hro] at hr2
      simp only [hro]
      cases err with
      | some e => exact hr2
      | none =>
        by_cases hco : st2.container = fid
        · rw [if_pos hco]
          exact hr2
        · rw [if_neg hco]
          exact ih _ _ _ hr2

theorem inv_facadeWrite : ∀ (fuel : Nat) (st : MState) (p : List Nat),
    Inv st → Inv (facadeWrite fuel st p).2 := by
  intro fuel
  induction fuel with
  | zero => intro st p h; exact h
  | succ n ih =>
    intro st p h
    rw [facadeWrite]
    have hw : Inv (write n st st.container p).2 := inv_write n st _ p h
    split
    · exact ih _ _ hw
    · exact hw

theorem inv_runWrites (fuel : Nat) (ps : List (List Nat)) (st : MState)
    (h : Inv st) : Inv (runWrites fuel ps st) := by
  induction ps generalizing st with
  | nil => exact h
  | cons p ps ih => exact ih _ (inv_facadeWrite fuel st p h)

/-- C8: over every sequence of writes run against a freshly constructed
writer, every handle ever present in the heap has initiated at most one
rotation — the sync.Once guard is single-shot per Active File Handle, no
matter how many writes observe the counter over threshold, which fault
flags are set, or how much fuel the runs are given. -/
theorem rotation_single_shot (fuel : Nat) (ps : List (List Nat))
    (c mx : Int) (old : List Nat) (path : String) (now : Nat)
    (cf rf of : Bool) :
    ∀ f ∈ (runWrites fuel ps (mkInit c mx old path now cf rf of)).heap,
      f.rotations ≤ 1 := by
  intro f hf
  have h : Inv (mkInit c mx old path now cf rf of) := by
    intro g hg
    rw [mkInit] at hg
    rw [List.mem_singleton] at hg
    subst hg
    exact ⟨Nat.zero_le _, fun _ => rfl⟩
  exact (inv_runWrites fuel ps _ h f hf).1

/-- Witness for C8: a run of two writes (the first triggering a rotation)
leaves the original handle in the heap with exactly one rotation
initiated. -/
theorem rotation_single_shot_witness :
    (⟨5, 4, true, true, [9, 9], 1⟩ : RFile) ∈
      (runWrites 5 [[5, 5, 5], [7]]
        (mkInit 2 4 [9, 9] "x.log" 1700 false false false)).heap ∧
    (⟨5, 4, true, true, [9, 9], 1⟩ : RFile).rotations ≤ 1 :=
  ⟨by decide, rotation_single_shot 5 [[5, 5, 5], [7]] 2 4 [9, 9] "x.log"
    1700 false false false _ (by decide)⟩

/-! ## Claim C10: stale handles delegate and never write -/

theorem lt_length_of_closed {st : MState} {j : Nat}
    (h : (getF st j).closed = true) : j < st.heap.length := by
  by_contra hn
  rw [getF, List.getElem?_eq_none (Nat.le_of_not_lt hn)] at h
  simp [rfDefault] at h

theorem getF_setF {st : MState} {i j : Nat} {f : RFile} :
    getF (setF st i f) j =
      if i = j ∧ i < st.heap.length then f else getF st j := by
  simp only [getF, setF, List.getElem?_set]
  by_cases hij : i = j
  · subst hij
    by_cases hlt : i < st.heap.length
    · simp [hlt]
    · simp [hlt, List.getElem?_eq_none (Nat.le_of_not_lt hlt)]
  · simp [hij]

theorem rotate_preserves_closed {st : MState} {fid j : Nat}
    (h : (getF st j).closed = true) :
    (getF (rotate st fid).2 j).content = (getF st j).content ∧
    (getF (rotate st fid).2 j).closed = true := by
  have hj := lt_length_of_closed h
  have h' : (st.heap[j]?.getD rfDefault).closed = true := h
  have hg : st.heap[j].closed = true := by
    rwa [getF, List.getElem?_eq_getElem hj] at h
  by_cases hij : fid = j
  · subst hij
    rw [rotate]
    dsimp only [setF]
    split_ifs with hcf hrf hof <;>
      refine ⟨?_, ?_⟩ <;>
        simp [getF, List.getElem?_set, List.getElem?_append,
          List.length_set, hj, h', hg]
  · rw [rotate]
    dsimp only [setF]
    split_ifs with hcf hrf hof <;>
      refine ⟨?_, ?_⟩ <;>
        simp [getF, List.getElem?_set, List.getElem?_append,
          List.length_set, hij, hj, h', hg]

theorem onceDo_preserves_closed {st : MState} {fid j : Nat}
    (h : (getF st j).closed = true) :
    (getF (onceDo st fid).2 j).content = (getF st j).content ∧
    (getF (onceDo st fid).2 j).closed = true := by
  rw [onceDo]
  by_cases honce : (getF st fid).once = true
  · rw [if_pos honce]
    exact ⟨rfl, h⟩
  · rw [if_neg honce]
    have hstb : (getF (setF st fid { getF st fid with once := true })
          j).content = (getF st j).content ∧
        (getF (setF st fid { getF st fid with once := true }) j).closed =
          true := by
      rw [getF_setF]
      split_ifs with hc
      · obtain ⟨rfl, -⟩ := hc
        exact ⟨rfl, h⟩
      · exact ⟨rfl, h⟩
    have hrp := @rotate_preserves_closed
      (setF st fid { getF st fid with once := true }) fid j hstb.2
    rcases hr : rotate (setF st fid { getF st fid with once := true }) fid
      with ⟨res, stR⟩
    rw [hr] at hrp
    cases res <;> simp only [hr] <;>
      exact ⟨hrp.1.trans hstb.1, hrp.2⟩

theorem write_preserves_closed : ∀ (fuel : Nat) (st : MState) (fid : Nat)
    (p : List Nat) (j : Nat), (getF st j).closed = true →
    (getF (write fuel st fid p).2 j).content = (getF st j).content ∧
    (getF (write fuel st fid p).2 j).closed = true := by
  intro fuel
  induction fuel with
  | zero => intro st fid p j h; exact ⟨rfl, h⟩
  | succ n ih =>
    intro st fid p j h
    have hb : (getF (setF st fid { getF st fid with
          count := (getF st fid).count + (p.length : Int) }) j).content =
          (getF st j).content ∧
        (getF (setF st fid { getF st fid with
          count := (getF st fid).count + (p.length : Int) }) j).closed =
          true := by
      rw [getF_setF]
      split_ifs with hc
      · obtain ⟨rfl, -⟩ := hc
        exact ⟨rfl, h⟩
      · exact ⟨rfl, h⟩
    rw [write]
    by_cases hle :
        (getF st fid).count + (p.length : Int) ≤ (getF st fid).max
    · rw [if_pos hle]
      by_cases hcl : ({ getF st fid with
          count := (getF st fid).count + (p.length : Int) } : RFile).closed
          = true
      · rw [if_pos hcl]
        exact hb
      · rw [if_neg hcl]
        have hij : fid ≠ j := by
          intro he
          subst he
          exact hcl h
        refine ⟨?_, ?_⟩ <;>
          · rw [getF_setF, getF_setF]
            simp [hij, h]
    · rw [if_neg hle]
      have ho := @onceDo_preserves_closed
        (setF st fid { getF st fid with
          count := (getF st fid).count + (p.length : Int) }) fid j hb.2
      rcases hro : onceDo (setF st fid { getF st fid with
          count := (getF st fid).count + (p.length : Int) }) fid
        with ⟨err, st2⟩
      rw [hro] at ho
      simp only [hro]
      cases err with
      | some e => exact ⟨ho.1.trans hb.1, ho.2⟩
      | none =>
        by_cases hco : st2.container = fid
        · rw [if_pos hco]
          exact ⟨ho.1.trans hb.1, ho.2⟩
        · rw [if_neg hco]
          have := ih st2 st2.container p j ho.2
          exact ⟨this.1.trans (ho.1.trans hb.1), this.2⟩

/-- C10: a Write on a handle that has been superseded by a successful
rotation — counter over the maximum, guard already fired, descriptor
closed, shared reference pointing elsewhere — bumps its own counter and
then delegates the full payload to the handle currently published in the
shared reference, returning that handle's result; the stale handle's
content is never touched through its closed descriptor. -/
theorem stale_write_delegates (st : MState) (fid : Nat) (p : List Nat)
    (fuel : Nat)
    (hover : (getF st fid).max < (getF st fid).count)
    (honce : (getF st fid).once = true)
    (hclosed : (getF st fid).closed = true)
    (hne : st.container ≠ fid) :
    write (fuel + 1) st fid p =
      write fuel (setF st fid { getF st fid with
        count := (getF st fid).count + (p.length : Int) }) st.container p ∧
    (getF (write (fuel + 1) st fid p).2 fid).content =
      (getF st fid).content := by
  have hc : ¬((getF st fid).count + (p.length : Int) ≤ (getF st fid).max) := by
    have hp : (0 : Int) ≤ (p.length : Int) := Int.ofNat_nonneg _
    omega
  have honce1 : (getF (setF st fid { getF st fid with
      count := (getF st fid).count + (p.length : Int) }) fid).once = true := by
    rw [getF_setF]
    split_ifs <;> exact honce
  have hod : onceDo (setF st fid { getF st fid with
      count := (getF st fid).count + (p.length : Int) }) fid =
      (none, setF st fid { getF st fid with
        count := (getF st fid).count + (p.length : Int) }) := by
    rw [onceDo, if_pos honce1]
  have heq : write (fuel + 1) st fid p =
      write fuel (setF st fid { getF st fid with
        count := (getF st fid).count + (p.length : Int) }) st.container p := by
    rw [write, if_neg hc]
    simp only [hod]
    rw [if_neg]
    · rfl
    · exact hne
  refine ⟨heq, ?_⟩
  rw [heq]
  have hcl1 : (getF (setF st fid { getF st fid with
      count := (getF st fid).count + (p.length : Int) }) fid).closed =
      true := by
    rw [getF_setF]
    split_ifs <;> exact hclosed
  have hpres := write_preserves_closed fuel (setF st fid { getF st fid with
      count := (getF st fid).count + (p.length : Int) }) st.container p fid
    hcl1
  rw [hpres.1, getF_setF]
  split_ifs with hcc
  · rfl
  · rfl

/-- Witness for C10: in the concrete state `staleDemo` (stale handle 0 with
counter 5 over maximum 4, guard fired, closed; container publishing handle
1), a write of the single byte 8 through handle 0 delegates to the
published handle and handle 0's content stays 9 9. -/
theorem stale_write_delegates_witness :
    write 3 staleDemo 0 [8] =
      write 2 (setF staleDemo 0 { getF staleDemo 0 with
        count := (getF staleDemo 0).count +
          ((([8] : List Nat)).length : Int) }) staleDemo.container [8] ∧
    (getF (write 3 staleDemo 0 [8]).2 0).content = [9, 9] :=
  stale_write_delegates staleDemo 0 [8] 2 (by decide) (by decide)
    (by decide) (by decide)

end RotateLogger
